import Mathlib

/-!
Verification of the entity-resolution core of the executive record review
pipeline (src/executive_review_tool.py): pairwise weighted similarity
scoring, single-pass star clustering, confidence tiering, the
approve/reject/skip review session, and the approved-groups upload filter.

Strings are modelled as Lean strings, records as association lists from
column name to raw value (a missing column reads as the empty string, the
way `record.get(col, "")` behaves on absent keys), and similarity scores
as rationals.  The third-party string-similarity calls (rapidfuzz
`fuzz.ratio` and `fuzz.token_sort_ratio`) are modelled from the spec:
plain similarity is `100 * (1 - levenshtein / (len a + len b))` and
token-sort similarity sorts whitespace tokens before comparing (spec
section 4.2, which fixes this contract for any conformant edit-distance
implementation).
-/

namespace ERT

/-- Levenshtein distance with an explicit fuel argument so that the
recursion is structural (on the fuel) and kernel-computable.  The fuel is
irrelevant as long as it is at least the sum of the two lengths. -/
def levFuel : Nat → List Char → List Char → Nat
  | _, [], ys => ys.length
  | _, x :: xs, [] => (x :: xs).length
  | 0, _ :: _, _ :: _ => 0
  | f + 1, x :: xs, y :: ys =>
      if x = y then levFuel f xs ys
      else 1 + min (levFuel f xs (y :: ys)) (min (levFuel f (x :: xs) ys) (levFuel f xs ys))

/-- Levenshtein edit distance between two character lists (unit costs for
insert, delete and substitute). -/
def lev (xs ys : List Char) : Nat := levFuel (xs.length + ys.length) xs ys

/-- ASCII whitespace test, matching what the Python `str.split()` (no
arguments) treats as a separator on the data in scope. -/
def isWs (c : Char) : Bool := c = ' ' || c = '\t' || c = '\n' || c = '\r'

/-- ASCII lower-casing of one character, matching `str.lower()` on the
data in scope. -/
def lowerChar (c : Char) : Char :=
  if 'A' ≤ c ∧ c ≤ 'Z' then Char.ofNat (c.toNat + 32) else c

/-- Split a character list into its maximal whitespace-free tokens
(empty pieces dropped), the way `str.split()` with no arguments behaves.
The accumulator holds the current token reversed. -/
def splitToks : List Char → List Char → List (List Char)
  | [], acc => if acc.isEmpty then [] else [acc.reverse]
  | c :: cs, acc =>
    if isWs c then
      if acc.isEmpty then splitToks cs [] else acc.reverse :: splitToks cs []
    else splitToks cs (c :: acc)

/-- Join tokens with single spaces. -/
def joinSpace (ts : List (List Char)) : List Char := List.intercalate [' '] ts

/-- `normalize_string`: convert to text (callers pass strings; absent
values read as `""`), strip, lower-case, and collapse internal whitespace
runs to single spaces (`' '.join(s.split())` after `lower`). -/
def normalize_string (s : String) : String :=
  ⟨joinSpace (splitToks (s.toList.map lowerChar) [])⟩

/-- Modelled from the spec: plain similarity on character lists is the
edit-distance percentage `100 * (1 - lev / (len a + len b))`, and two
empty strings count as fully similar. -/
def ratioChars (a b : List Char) : ℚ :=
  if a.length + b.length = 0 then 100
  else (100 * ((a.length + b.length - lev a b : Nat) : ℚ)) /
    ((a.length + b.length : Nat) : ℚ)

/-- Modelled from the spec: rapidfuzz `fuzz.ratio`, plain similarity of
two strings. -/
def fuzz_ratio (a b : String) : ℚ := ratioChars a.toList b.toList

/-- Sort the whitespace tokens of a string lexicographically and rejoin
them with single spaces (the token preprocessing of rapidfuzz
`fuzz.token_sort_ratio`). -/
def token_sort (s : String) : List Char :=
  joinSpace (List.insertionSort (fun a b : List Char => a ≤ b) (splitToks s.toList []))

/-- Modelled from the spec: rapidfuzz `fuzz.token_sort_ratio`, plain
similarity on the token-sorted strings, making word order irrelevant. -/
def token_sort_ratio (a b : String) : ℚ :=
  ratioChars (token_sort a) (token_sort b)

/-- A raw record: an association list from column name to raw value.
`pd.isna` / null values are represented by absence or by `""`. -/
abbrev Record := List (String × String)

/-- `record.get(col, "")`: read a column, an absent column reads as `""`. -/
def getField (r : Record) (col : String) : String :=
  match r.find? (fun p => p.1 = col) with
  | some p => p.2
  | none => ""

/-- The `(score, weight)` pairs accumulated by
`calculate_similarity_score`, in source order: name (token-sort, 0.5),
address (token-sort, 0.25), title (token-sort, 0.15), company (plain
ratio, 0.1); a pair is appended only when both records have a non-empty
normalized value for the role. -/
def subScores (record1 record2 : Record)
    (name_col title_col address_col company_col : String) : List (ℚ × ℚ) :=
  (if normalize_string (getField record1 name_col) ≠ "" ∧
      normalize_string (getField record2 name_col) ≠ "" then
    [(token_sort_ratio (normalize_string (getField record1 name_col))
        (normalize_string (getField record2 name_col)), (0.5 : ℚ))]
  else []) ++
  (if normalize_string (getField record1 address_col) ≠ "" ∧
      normalize_string (getField record2 address_col) ≠ "" then
    [(token_sort_ratio (normalize_string (getField record1 address_col))
        (normalize_string (getField record2 address_col)), (0.25 : ℚ))]
  else []) ++
  (if normalize_string (getField record1 title_col) ≠ "" ∧
      normalize_string (getField record2 title_col) ≠ "" then
    [(token_sort_ratio (normalize_string (getField record1 title_col))
        (normalize_string (getField record2 title_col)), (0.15 : ℚ))]
  else []) ++
  (if normalize_string (getField record1 company_col) ≠ "" ∧
      normalize_string (getField record2 company_col) ≠ "" then
    [(fuzz_ratio (normalize_string (getField record1 company_col))
        (normalize_string (getField record2 company_col)), (0.1 : ℚ))]
  else [])

/-- The final weighted-average step of `calculate_similarity_score`:
`0.0` when no sub-score was collected or the total weight is zero,
otherwise `sum(s * w) / sum(w)`. -/
def weightedOf (sw : List (ℚ × ℚ)) : ℚ :=
  if sw = [] then 0
  else if (sw.map Prod.snd).sum = 0 then 0
  else (sw.map fun p => p.1 * p.2).sum / (sw.map Prod.snd).sum

/-- `calculate_similarity_score(record1, record2, name_col, title_col,
address_col, company_col)`. -/
def calculate_similarity_score (record1 record2 : Record)
    (name_col title_col address_col company_col : String) : ℚ :=
  weightedOf (subScores record1 record2 name_col title_col address_col company_col)

/-- Modelled from the spec: the section 4.2 final-score formula, written
the way the spec states it: a weighted average over exactly the roles
where both records have a non-empty normalized value, with weights name
0.5, address 0.25, title 0.15, company 0.1, and score `0.0` when no role
is present on both sides. -/
def spec_score (record1 record2 : Record)
    (nc tc ac cc : String) : ℚ :=
  if (if normalize_string (getField record1 nc) ≠ "" ∧
        normalize_string (getField record2 nc) ≠ "" then (0.5:ℚ) else 0) +
      (if normalize_string (getField record1 ac) ≠ "" ∧
        normalize_string (getField record2 ac) ≠ "" then (0.25:ℚ) else 0) +
      (if normalize_string (getField record1 tc) ≠ "" ∧
        normalize_string (getField record2 tc) ≠ "" then (0.15:ℚ) else 0) +
      (if normalize_string (getField record1 cc) ≠ "" ∧
        normalize_string (getField record2 cc) ≠ "" then (0.1:ℚ) else 0) = 0 then 0
  else ((if normalize_string (getField record1 nc) ≠ "" ∧
        normalize_string (getField record2 nc) ≠ "" then
        token_sort_ratio (normalize_string (getField record1 nc))
          (normalize_string (getField record2 nc)) * (0.5:ℚ) else 0) +
      (if normalize_string (getField record1 ac) ≠ "" ∧
        normalize_string (getField record2 ac) ≠ "" then
        token_sort_ratio (normalize_string (getField record1 ac))
          (normalize_string (getField record2 ac)) * (0.25:ℚ) else 0) +
      (if normalize_string (getField record1 tc) ≠ "" ∧
        normalize_string (getField record2 tc) ≠ "" then
        token_sort_ratio (normalize_string (getField record1 tc))
          (normalize_string (getField record2 tc)) * (0.15:ℚ) else 0) +
      (if normalize_string (getField record1 cc) ≠ "" ∧
        normalize_string (getField record2 cc) ≠ "" then
        fuzz_ratio (normalize_string (getField record1 cc))
          (normalize_string (getField record2 cc)) * (0.1:ℚ) else 0)) /
    ((if normalize_string (getField record1 nc) ≠ "" ∧
        normalize_string (getField record2 nc) ≠ "" then (0.5:ℚ) else 0) +
      (if normalize_string (getField record1 ac) ≠ "" ∧
        normalize_string (getField record2 ac) ≠ "" then (0.25:ℚ) else 0) +
      (if normalize_string (getField record1 tc) ≠ "" ∧
        normalize_string (getField record2 tc) ≠ "" then (0.15:ℚ) else 0) +
      (if normalize_string (getField record1 cc) ≠ "" ∧
        normalize_string (getField record2 cc) ≠ "" then (0.1:ℚ) else 0))

/-- Pairwise score between the records at two batch indices (an index out
of range reads as the empty record, which never occurs in the loops). -/
def scoreIdx (records : List Record) (nc tc ac cc : String) (i j : Nat) : ℚ :=
  calculate_similarity_score (records.getD i []) (records.getD j []) nc tc ac cc

/-- The grouping pass of `group_executive_records`: walk the index list
(`for i, record1 in enumerate(records)`), skip indices already grouped,
otherwise seed a candidate group at `i` and absorb every later ungrouped
`j` with `score(i, j) ≥ t` (`if j <= i or j in grouped: continue`);
candidate groups with a single member are discarded but their seed stays
in `grouped`. -/
def group_scan (score : Nat → Nat → ℚ) (t : ℚ) (n : Nat) :
    List Nat → List Nat → List (List Nat)
  | [], _ => []
  | i :: rest, grouped =>
    if i ∈ grouped then group_scan score t n rest grouped
    else
      if 1 < (i :: (List.range n).filter
          (fun j => decide (i < j ∧ j ∉ grouped ∧ t ≤ score i j))).length then
        (i :: (List.range n).filter
            (fun j => decide (i < j ∧ j ∉ grouped ∧ t ≤ score i j))) ::
          group_scan score t n rest
            (grouped ++ i :: (List.range n).filter
              (fun j => decide (i < j ∧ j ∉ grouped ∧ t ≤ score i j)))
      else
        group_scan score t n rest
          (grouped ++ i :: (List.range n).filter
            (fun j => decide (i < j ∧ j ∉ grouped ∧ t ≤ score i j)))

/-- The member-index lists of the multi-record groups emitted by the
grouping pass of `group_executive_records`, in discovery order. -/
def grouped_indices (records : List Record) (nc tc ac cc : String) (t : ℚ) :
    List (List Nat) :=
  group_scan (scoreIdx records nc tc ac cc) t records.length
    (List.range records.length) []

/-- The pairwise scores inside one group, in the order of the source's
double loop (`for i in range(len)`, `for j in range(i+1, len)`). -/
def group_pair_scores (score : Nat → Nat → ℚ) : List Nat → List ℚ
  | [] => []
  | x :: xs => (xs.map fun y => score x y) ++ group_pair_scores score xs

/-- Arithmetic mean of the pairwise scores inside one group (`0` for a
group with fewer than two members, which is never emitted). -/
def avg_similarity (score : Nat → Nat → ℚ) (g : List Nat) : ℚ :=
  if group_pair_scores score g = [] then 0
  else (group_pair_scores score g).sum / ((group_pair_scores score g).length : ℚ)

/-- The confidence tier assigned by `group_executive_records`: first the
`t ≤ avg < u` test (uncertain, queued for review), then `u ≤ avg`
(high), otherwise low. -/
def confidence_of (t u avg : ℚ) : String :=
  if t ≤ avg ∧ avg < u then "uncertain"
  else if u ≤ avg then "high"
  else "low"

/-- One emitted group after classification: sequential identifier, member
indices, distinct normalized non-empty companies, founding member's
normalized name, average intra-group similarity and confidence tier. -/
structure GroupRec where
  group_id : Nat
  record_indices : List Nat
  companies : List String
  person_name : String
  avg_similarity : ℚ
  confidence : String
  deriving DecidableEq, Repr

/-- `group_executive_records(df, ..., similarity_threshold,
uncertainty_threshold)`: the clustering pass followed by the
classification pass; returns the annotated groups and the identifiers of
the groups queued for review (those with `t ≤ avg < u`). -/
def group_executive_records (records : List Record) (nc tc ac cc : String)
    (t u : ℚ) : List GroupRec × List Nat :=
  ((grouped_indices records nc tc ac cc t).enum.map (fun p =>
    { group_id := p.1
      record_indices := p.2
      companies := ((p.2.map (fun idx =>
          normalize_string (getField (records.getD idx []) cc))).filter
            (fun s => s ≠ "")).dedup
      person_name := normalize_string (getField (records.getD (p.2.headD 0) []) nc)
      avg_similarity := avg_similarity (scoreIdx records nc tc ac cc) p.2
      confidence := confidence_of t u
        (avg_similarity (scoreIdx records nc tc ac cc) p.2) }),
  (((grouped_indices records nc tc ac cc t).enum.filter (fun p =>
      decide (t ≤ avg_similarity (scoreIdx records nc tc ac cc) p.2 ∧
        avg_similarity (scoreIdx records nc tc ac cc) p.2 < u))).map Prod.fst))

/-- `response.lower().strip()`: ASCII lower-case and strip surrounding
whitespace, structurally on the character list. -/
def lower_strip (s : String) : String :=
  ⟨(((s.toList.map lowerChar).dropWhile isWs).reverse.dropWhile isWs).reverse⟩

/-- One pass of the review loop of `display_review_interface`: consume
the input stream until each presented group receives a decision; `yes`/`y`
approves, `no`/`n` rejects, `skip`/`s` skips, anything else re-prompts for
the same group, and end of input (`EOFError` /
`KeyboardInterrupt`) returns the decisions collected so far. -/
def review_loop : List Nat → List String → List Nat → List Nat → List Nat × List Nat
  | [], _, approved, rejected => (approved, rejected)
  | _ :: _, [], approved, rejected => (approved, rejected)
  | g :: gs, resp :: rest, approved, rejected =>
    if lower_strip resp = "yes" ∨ lower_strip resp = "y" then
      review_loop gs rest (approved ++ [g]) rejected
    else if lower_strip resp = "no" ∨ lower_strip resp = "n" then
      review_loop gs rest approved (rejected ++ [g])
    else if lower_strip resp = "skip" ∨ lower_strip resp = "s" then
      review_loop gs rest approved rejected
    else
      review_loop (g :: gs) rest approved rejected

/-- `display_review_interface(groups, uncertain_groups, ...)` driven by an
explicit input stream: presents exactly the groups whose identifier is in
`uncertain` (in list order) and returns the approved and rejected
identifier lists. -/
def display_review_interface (groups : List GroupRec) (uncertain : List Nat)
    (inputs : List String) : List Nat × List Nat :=
  review_loop ((groups.filter (fun g => g.group_id ∈ uncertain)).map
    (fun g => g.group_id)) inputs [] []

/-- The selection step of `upload_approved_groups_to_firebase`: the groups
actually consolidated and uploaded are exactly those whose identifier is
in the approved list (`if group['group_id'] not in approved_groups:
continue`). -/
def upload_approved_groups_to_firebase (groups : List GroupRec)
    (approved : List Nat) : List GroupRec :=
  groups.filter (fun g => g.group_id ∈ approved)

/-- Four concrete single-column records whose pairwise name similarities
are 87.5 (0-1), 75 (0-2), 62.5 (0-3) and 87.5 (2-3). -/
def cexRecords : List Record :=
  [[("name", "aaaa")], [("name", "aaab")], [("name", "aabb")], [("name", "abbb")]]

/-- Three concrete records for the non-transitive star scenario: the seed
scores 80 against each of the other two, which score only 60 against each
other. -/
def starRecords : List Record :=
  [[("name", "abcde")], [("name", "xycde")], [("name", "abcyz")]]

/-- Two identical single-column records. -/
def pairRecords : List Record :=
  [[("name", "ann lee")], [("name", "ann lee")]]

/-- A record with all four scored roles populated. -/
def fullRecord : Record :=
  [("name", "ann lee"), ("title", "ceo"), ("addr", "1 main st"), ("comp", "acme")]

/-- Concrete annotated groups for exercising the review session. -/
def wGroups : List GroupRec :=
  [{ group_id := 0, record_indices := [0, 1], companies := ["acme"],
     person_name := "ann lee", avg_similarity := 90, confidence := "uncertain" },
   { group_id := 1, record_indices := [2, 3], companies := [],
     person_name := "bob", avg_similarity := 80, confidence := "uncertain" },
   { group_id := 2, record_indices := [4, 5], companies := [],
     person_name := "cat", avg_similarity := 82, confidence := "uncertain" }]

theorem levFuel_nil (f : Nat) (ys : List Char) : levFuel f [] ys = ys.length := by
  cases f <;> rfl

theorem levFuel_cons_nil (f : Nat) (x : Char) (xs : List Char) :
    levFuel f (x :: xs) [] = xs.length + 1 := by
  cases f <;> rfl

theorem levFuel_succ_cons (f : Nat) (x y : Char) (xs ys : List Char) :
    levFuel (f + 1) (x :: xs) (y :: ys) =
      if x = y then levFuel f xs ys
      else 1 + min (levFuel f xs (y :: ys)) (min (levFuel f (x :: xs) ys) (levFuel f xs ys)) :=
  rfl

theorem levFuel_congr : ∀ (f g : Nat) (xs ys : List Char),
    xs.length + ys.length ≤ f → xs.length + ys.length ≤ g →
    levFuel f xs ys = levFuel g xs ys := by
  intro f
  induction f with
  | zero =>
    intro g xs ys hf _
    cases xs with
    | nil => rw [levFuel_nil, levFuel_nil]
    | cons x xs => simp at hf
  | succ f ih =>
    intro g xs ys hf hg
    cases xs with
    | nil => rw [levFuel_nil, levFuel_nil]
    | cons x xs =>
      cases ys with
      | nil => rw [levFuel_cons_nil, levFuel_cons_nil]
      | cons y ys =>
        cases g with
        | zero => simp at hg
        | succ g =>
          rw [levFuel_succ_cons, levFuel_succ_cons]
          simp only [List.length_cons] at hf hg
          have h1 : xs.length + (y :: ys).length ≤ f := by simp; omega
          have h2 : (x :: xs).length + ys.length ≤ f := by simp; omega
          have h3 : xs.length + ys.length ≤ f := by omega
          have h4 : xs.length + (y :: ys).length ≤ g := by simp; omega
          have h5 : (x :: xs).length + ys.length ≤ g := by simp; omega
          have h6 : xs.length + ys.length ≤ g := by omega
          rw [ih g xs ys h3 h6, ih g xs (y :: ys) h1 h4, ih g (x :: xs) ys h2 h5]

theorem lev_nil (ys : List Char) : lev [] ys = ys.length := levFuel_nil _ _

theorem lev_cons_nil (x : Char) (xs : List Char) : lev (x :: xs) [] = xs.length + 1 :=
  levFuel_cons_nil _ _ _

theorem lev_cons_cons (x y : Char) (xs ys : List Char) :
    lev (x :: xs) (y :: ys) =
      if x = y then lev xs ys
      else 1 + min (lev xs (y :: ys)) (min (lev (x :: xs) ys) (lev xs ys)) := by
  have hlen : (x :: xs).length + (y :: ys).length = (xs.length + ys.length + 1) + 1 := by
    simp; omega
  rw [lev, hlen, levFuel_succ_cons]
  have e1 : levFuel (xs.length + ys.length + 1) xs (y :: ys) = lev xs (y :: ys) :=
    levFuel_congr _ _ _ _ (by simp only [List.length_cons]; omega)
      (by simp only [List.length_cons]; omega)
  have e2 : levFuel (xs.length + ys.length + 1) (x :: xs) ys = lev (x :: xs) ys :=
    levFuel_congr _ _ _ _ (by simp only [List.length_cons]; omega)
      (by simp only [List.length_cons]; omega)
  have e3 : levFuel (xs.length + ys.length + 1) xs ys = lev xs ys :=
    levFuel_congr _ _ _ _ (by omega) (by omega)
  rw [e1, e2, e3]

theorem lev_symm : ∀ (xs ys : List Char), lev xs ys = lev ys xs := by
  intro xs
  induction xs with
  | nil =>
    intro ys
    cases ys with
    | nil => rfl
    | cons y ys => rw [lev_nil, lev_cons_nil, List.length_cons]
  | cons x xs ih =>
    intro ys
    induction ys with
    | nil => rw [lev_nil, lev_cons_nil, List.length_cons]
    | cons y ys ih2 =>
      rw [lev_cons_cons, lev_cons_cons]
      by_cases h : x = y
      · subst h
        simp [ih ys]
      · have h2 : ¬ y = x := fun e => h e.symm
        rw [if_neg h, if_neg h2, ih (y :: ys), ih ys, ih2]
        omega

theorem lev_self : ∀ (xs : List Char), lev xs xs = 0 := by
  intro xs
  induction xs with
  | nil => rw [lev_nil]; rfl
  | cons x xs ih => rw [lev_cons_cons, if_pos rfl, ih]

theorem ratioChars_symm (a b : List Char) : ratioChars a b = ratioChars b a := by
  unfold ratioChars
  rw [lev_symm, Nat.add_comm a.length b.length]

theorem ratioChars_self (a : List Char) : ratioChars a a = 100 := by
  unfold ratioChars
  split
  · rfl
  · rename_i h
    rw [lev_self, Nat.sub_zero]
    rw [div_eq_iff (by exact_mod_cast h)]

theorem ratioChars_nonneg (a b : List Char) : 0 ≤ ratioChars a b := by
  unfold ratioChars
  split
  · norm_num
  · positivity

theorem ratioChars_le_100 (a b : List Char) : ratioChars a b ≤ 100 := by
  unfold ratioChars
  split
  · exact le_refl 100
  · rename_i h
    have hpos : (0 : ℚ) < ((a.length + b.length : Nat) : ℚ) := by
      exact_mod_cast Nat.pos_of_ne_zero h
    rw [div_le_iff₀ hpos]
    have hle : ((a.length + b.length - lev a b : Nat) : ℚ) ≤
        ((a.length + b.length : Nat) : ℚ) := by
      exact_mod_cast Nat.sub_le _ _
    nlinarith

theorem token_sort_ratio_symm (a b : String) :
    token_sort_ratio a b = token_sort_ratio b a :=
  ratioChars_symm _ _

theorem token_sort_ratio_self (a : String) : token_sort_ratio a a = 100 :=
  ratioChars_self _

theorem token_sort_ratio_nonneg (a b : String) : 0 ≤ token_sort_ratio a b :=
  ratioChars_nonneg _ _

theorem token_sort_ratio_le_100 (a b : String) : token_sort_ratio a b ≤ 100 :=
  ratioChars_le_100 _ _

theorem fuzz_ratio_symm (a b : String) : fuzz_ratio a b = fuzz_ratio b a :=
  ratioChars_symm _ _

theorem fuzz_ratio_self (a : String) : fuzz_ratio a a = 100 :=
  ratioChars_self _

theorem fuzz_ratio_nonneg (a b : String) : 0 ≤ fuzz_ratio a b :=
  ratioChars_nonneg _ _

theorem fuzz_ratio_le_100 (a b : String) : fuzz_ratio a b ≤ 100 :=
  ratioChars_le_100 _ _

theorem token_sort_ratio_eval (a b : String) (d S : ℕ) (q : ℚ)
    (hd : lev (token_sort a) (token_sort b) = d)
    (hS : (token_sort a).length + (token_sort b).length = S)
    (hS0 : S ≠ 0)
    (hq : (100 * ((S - d : ℕ) : ℚ)) / ((S : ℕ) : ℚ) = q) :
    token_sort_ratio a b = q := by
  unfold token_sort_ratio ratioChars
  rw [hd, hS, if_neg hS0, hq]

theorem mem_ite_singleton {α : Type} {c : Prop} [Decidable c] {x p : α}
    (h : p ∈ (if c then [x] else [])) : p = x := by
  split at h
  · simpa using h
  · simp at h

theorem chunk_bounds {c : Prop} [Decidable c] {s w : ℚ}
    (hs : 0 ≤ s ∧ s ≤ 100) (hw : 0 < w) :
    ∀ p ∈ (if c then [(s, w)] else []), (0 ≤ p.1 ∧ p.1 ≤ 100) ∧ 0 < p.2 := by
  split
  · intro p hp
    simp only [List.mem_singleton] at hp
    subst hp
    exact ⟨hs, hw⟩
  · intro p hp
    simp at hp

theorem subScores_mem_bounds (record1 record2 : Record)
    (nc tc ac cc : String) :
    ∀ p ∈ subScores record1 record2 nc tc ac cc,
      (0 ≤ p.1 ∧ p.1 ≤ 100) ∧ 0 < p.2 := by
  intro p hp
  simp only [subScores, List.append_assoc, List.mem_append] at hp
  rcases hp with h | h | h | h
  · exact chunk_bounds ⟨token_sort_ratio_nonneg _ _, token_sort_ratio_le_100 _ _⟩
      (by norm_num) p h
  · exact chunk_bounds ⟨token_sort_ratio_nonneg _ _, token_sort_ratio_le_100 _ _⟩
      (by norm_num) p h
  · exact chunk_bounds ⟨token_sort_ratio_nonneg _ _, token_sort_ratio_le_100 _ _⟩
      (by norm_num) p h
  · exact chunk_bounds ⟨fuzz_ratio_nonneg _ _, fuzz_ratio_le_100 _ _⟩
      (by norm_num) p h

theorem sum_map_hundred (l : List (ℚ × ℚ)) :
    (l.map fun p => (100 : ℚ) * p.2).sum = 100 * (l.map Prod.snd).sum := by
  induction l with
  | nil => simp
  | cons q l ih =>
    simp only [List.map_cons, List.sum_cons, ih]
    ring

theorem weightedOf_bounds (sw : List (ℚ × ℚ))
    (h : ∀ p ∈ sw, (0 ≤ p.1 ∧ p.1 ≤ 100) ∧ 0 < p.2) :
    0 ≤ weightedOf sw ∧ weightedOf sw ≤ 100 := by
  unfold weightedOf
  split
  · norm_num
  split
  · norm_num
  rename_i hne hW
  have hWnn : 0 ≤ (sw.map Prod.snd).sum := by
    apply List.sum_nonneg
    intro x hx
    obtain ⟨p, hp, rfl⟩ := List.mem_map.mp hx
    exact le_of_lt (h p hp).2
  have hWpos : 0 < (sw.map Prod.snd).sum := lt_of_le_of_ne hWnn (Ne.symm hW)
  constructor
  · apply div_nonneg _ hWnn
    apply List.sum_nonneg
    intro x hx
    obtain ⟨p, hp, rfl⟩ := List.mem_map.mp hx
    exact mul_nonneg (h p hp).1.1 (le_of_lt (h p hp).2)
  · rw [div_le_iff₀ hWpos]
    have hle : (sw.map fun p => p.1 * p.2).sum ≤ (sw.map fun p => 100 * p.2).sum := by
      apply List.sum_le_sum
      intro p hp
      exact mul_le_mul_of_nonneg_right (h p hp).1.2 (le_of_lt (h p hp).2)
    calc (sw.map fun p => p.1 * p.2).sum ≤ (sw.map fun p => 100 * p.2).sum := hle
      _ = 100 * (sw.map Prod.snd).sum := sum_map_hundred sw

theorem calculate_similarity_score_nonneg (record1 record2 : Record)
    (nc tc ac cc : String) :
    0 ≤ calculate_similarity_score record1 record2 nc tc ac cc :=
  (weightedOf_bounds _ (subScores_mem_bounds record1 record2 nc tc ac cc)).1

theorem calculate_similarity_score_le_100 (record1 record2 : Record)
    (nc tc ac cc : String) :
    calculate_similarity_score record1 record2 nc tc ac cc ≤ 100 :=
  (weightedOf_bounds _ (subScores_mem_bounds record1 record2 nc tc ac cc)).2

theorem chunkPair_symm (u v : String) (f : String → String → ℚ) (w : ℚ)
    (hf : f u v = f v u) :
    (if u ≠ "" ∧ v ≠ "" then [(f u v, w)] else []) =
      (if v ≠ "" ∧ u ≠ "" then [(f v u, w)] else []) := by
  by_cases h1 : u = "" <;> by_cases h2 : v = "" <;> simp [h1, h2, hf]

theorem subScores_symm (record1 record2 : Record) (nc tc ac cc : String) :
    subScores record1 record2 nc tc ac cc = subScores record2 record1 nc tc ac cc := by
  unfold subScores
  rw [chunkPair_symm (normalize_string (getField record1 nc))
      (normalize_string (getField record2 nc)) token_sort_ratio (0.5 : ℚ)
      (token_sort_ratio_symm _ _),
    chunkPair_symm (normalize_string (getField record1 ac))
      (normalize_string (getField record2 ac)) token_sort_ratio (0.25 : ℚ)
      (token_sort_ratio_symm _ _),
    chunkPair_symm (normalize_string (getField record1 tc))
      (normalize_string (getField record2 tc)) token_sort_ratio (0.15 : ℚ)
      (token_sort_ratio_symm _ _),
    chunkPair_symm (normalize_string (getField record1 cc))
      (normalize_string (getField record2 cc)) fuzz_ratio (0.1 : ℚ)
      (fuzz_ratio_symm _ _)]

theorem weightedOf_four (P1 P2 P3 P4 : Prop)
    [Decidable P1] [Decidable P2] [Decidable P3] [Decidable P4] (s1 s2 s3 s4 : ℚ) :
    weightedOf ((if P1 then [(s1, (0.5:ℚ))] else []) ++ (if P2 then [(s2, (0.25:ℚ))] else []) ++
      (if P3 then [(s3, (0.15:ℚ))] else []) ++ (if P4 then [(s4, (0.1:ℚ))] else [])) =
    if (if P1 then (0.5:ℚ) else 0) + (if P2 then (0.25:ℚ) else 0) +
        (if P3 then (0.15:ℚ) else 0) + (if P4 then (0.1:ℚ) else 0) = 0 then 0
    else ((if P1 then s1 * (0.5:ℚ) else 0) + (if P2 then s2 * (0.25:ℚ) else 0) +
        (if P3 then s3 * (0.15:ℚ) else 0) + (if P4 then s4 * (0.1:ℚ) else 0)) /
      ((if P1 then (0.5:ℚ) else 0) + (if P2 then (0.25:ℚ) else 0) +
        (if P3 then (0.15:ℚ) else 0) + (if P4 then (0.1:ℚ) else 0)) := by
  by_cases h1 : P1 <;> by_cases h2 : P2 <;> by_cases h3 : P3 <;> by_cases h4 : P4 <;>
    simp only [h1, h2, h3, h4, if_true, if_false, List.append_nil, List.nil_append,
      List.cons_append, weightedOf, List.map_cons, List.map_nil, List.sum_cons,
      List.sum_nil, ite_true, ite_false] <;>
    norm_num <;> try simp
  all_goals try ring

theorem calculate_similarity_score_eq_spec (record1 record2 : Record)
    (nc tc ac cc : String) :
    calculate_similarity_score record1 record2 nc tc ac cc =
      spec_score record1 record2 nc tc ac cc := by
  unfold calculate_similarity_score subScores spec_score
  exact weightedOf_four _ _ _ _ _ _ _ _

theorem group_scan_shape (score : Nat → Nat → ℚ) (t : ℚ) (n : Nat) :
    ∀ (L : List Nat), ∀ (G : List Nat) (g : List Nat), g ∈ group_scan score t n L G →
      ∃ s rest, g = s :: rest ∧ s ∈ L ∧ s ∉ G ∧ rest ≠ [] ∧
        ∀ j ∈ rest, s < j ∧ j < n ∧ t ≤ score s j := by
  intro L
  induction L with
  | nil =>
    intro G g h
    simp [group_scan] at h
  | cons i rest ih =>
    intro G g h
    rw [group_scan] at h
    by_cases hiG : i ∈ G
    · rw [if_pos hiG] at h
      obtain ⟨s, r, hg, hs, hsG, hr, hall⟩ := ih G g h
      exact ⟨s, r, hg, List.mem_cons_of_mem _ hs, hsG, hr, hall⟩
    · rw [if_neg hiG] at h
      split at h
      · rename_i hlen
        rcases List.mem_cons.mp h with hg | hg
        · refine ⟨i, _, hg, List.mem_cons_self _ _, hiG, ?_, ?_⟩
          · intro hF
            rw [hF] at hlen
            simp at hlen
          · intro j hj
            have hj2 := List.mem_filter.mp hj
            have hj3 := of_decide_eq_true hj2.2
            exact ⟨hj3.1, List.mem_range.mp hj2.1, hj3.2.2⟩
        · obtain ⟨s, r, hgr, hs, hsG, hr, hall⟩ := ih _ g hg
          refine ⟨s, r, hgr, List.mem_cons_of_mem _ hs, ?_, hr, hall⟩
          intro hsG2
          exact hsG (List.mem_append_left _ hsG2)
      · obtain ⟨s, r, hgr, hs, hsG, hr, hall⟩ := ih _ g h
        refine ⟨s, r, hgr, List.mem_cons_of_mem _ hs, ?_, hr, hall⟩
        intro hsG2
        exact hsG (List.mem_append_left _ hsG2)

theorem group_scan_two_le_length (score : Nat → Nat → ℚ) (t : ℚ) (n : Nat)
    (L G : List Nat) (g : List Nat) (h : g ∈ group_scan score t n L G) :
    2 ≤ g.length := by
  obtain ⟨s, r, hg, -, -, hr, -⟩ := group_scan_shape score t n L G g h
  subst hg
  cases r with
  | nil => exact absurd rfl hr
  | cons a r => simp [Nat.succ_le_succ, Nat.le_add_left]

theorem group_scan_nodup_disjoint (score : Nat → Nat → ℚ) (t : ℚ) (n : Nat) :
    ∀ (L : List Nat), ∀ (G : List Nat),
      (∀ g ∈ group_scan score t n L G, g.Nodup ∧ ∀ x ∈ g, x ∉ G) ∧
      List.Pairwise (fun g1 g2 => ∀ x ∈ g1, x ∉ g2) (group_scan score t n L G) := by
  intro L
  induction L with
  | nil =>
    intro G
    simp [group_scan]
  | cons i rest ih =>
    intro G
    rw [group_scan]
    by_cases hiG : i ∈ G
    · rw [if_pos hiG]
      exact ih G
    · rw [if_neg hiG]
      have hmem : ∀ x ∈ (i :: (List.range n).filter
          (fun j => decide (i < j ∧ j ∉ G ∧ t ≤ score i j))), x ∉ G := by
        intro x hx
        rcases List.mem_cons.mp hx with rfl | hx
        · exact hiG
        · exact (of_decide_eq_true (List.mem_filter.mp hx).2).2.1
      have hnd : (i :: (List.range n).filter
          (fun j => decide (i < j ∧ j ∉ G ∧ t ≤ score i j))).Nodup := by
        refine List.nodup_cons.mpr ⟨?_, (List.nodup_range n).filter _⟩
        intro hi
        have := (of_decide_eq_true (List.mem_filter.mp hi).2).1
        omega
      split
      · constructor
        · intro g hg
          rcases List.mem_cons.mp hg with rfl | hg
          · exact ⟨hnd, hmem⟩
          · have h2 := ((ih _).1 g hg).2
            refine ⟨((ih _).1 g hg).1, ?_⟩
            intro x hx hxG
            exact h2 x hx (List.mem_append_left _ hxG)
        · refine List.pairwise_cons.mpr ⟨?_, (ih _).2⟩
          intro g hg x hx hxg
          exact ((ih _).1 g hg).2 x hxg (List.mem_append_right _ hx)
      · constructor
        · intro g hg
          have h2 := ((ih _).1 g hg).2
          refine ⟨((ih _).1 g hg).1, ?_⟩
          intro x hx hxG
          exact h2 x hx (List.mem_append_left _ hxG)
        · exact (ih _).2

theorem group_scan_first (score : Nat → Nat → ℚ) (t : ℚ) (n : Nat) :
    ∀ (L : List Nat), ∀ (G : List Nat) (g : List Nat) (gs2 : List (List Nat)),
      List.Pairwise (· < ·) L →
      (∀ x ∈ G, ∀ y ∈ L, x < y) →
      group_scan score t n L G = g :: gs2 →
      ∃ L1 s L2, L = L1 ++ s :: L2 ∧
        (∀ i ∈ L1, ∀ j, i < j → j < n → score i j < t) ∧
        g = s :: (List.range n).filter (fun j => decide (s < j ∧ t ≤ score s j)) := by
  intro L
  induction L with
  | nil =>
    intro G g gs2 _ _ h
    simp [group_scan] at h
  | cons i rest ih =>
    intro G g gs2 hpw hGL h
    have hiG : i ∉ G := by
      intro hi
      exact lt_irrefl i (hGL i hi i (List.mem_cons_self _ _))
    rw [group_scan, if_neg hiG] at h
    have hFeq : (List.range n).filter
        (fun j => decide (i < j ∧ j ∉ G ∧ t ≤ score i j)) =
        (List.range n).filter (fun j => decide (i < j ∧ t ≤ score i j)) := by
      apply List.filter_congr
      intro j hj
      apply decide_eq_decide.mpr
      constructor
      · rintro ⟨h1, _, h3⟩
        exact ⟨h1, h3⟩
      · rintro ⟨h1, h3⟩
        refine ⟨h1, ?_, h3⟩
        intro hjG
        exact absurd (hGL j hjG i (List.mem_cons_self _ _)) (by omega)
    split at h
    · rename_i hlen
      refine ⟨[], i, rest, by simp, by simp, ?_⟩
      have := (List.cons.injEq _ _ _ _).mp h
      rw [← this.1, hFeq]
    · rename_i hlen
      have hF : (List.range n).filter
          (fun j => decide (i < j ∧ j ∉ G ∧ t ≤ score i j)) = [] := by
        rcases hx : (List.range n).filter
            (fun j => decide (i < j ∧ j ∉ G ∧ t ≤ score i j)) with _ | ⟨a, l⟩
        · rfl
        · rw [hx] at hlen
          simp at hlen
      rw [hF] at h
      have hpw2 : List.Pairwise (· < ·) rest := (List.pairwise_cons.mp hpw).2
      have hGL2 : ∀ x ∈ G ++ [i], ∀ y ∈ rest, x < y := by
        intro x hx y hy
        rcases List.mem_append.mp hx with hx | hx
        · exact hGL x hx y (List.mem_cons_of_mem _ hy)
        · rw [List.mem_singleton.mp hx]
          exact (List.pairwise_cons.mp hpw).1 y hy
      obtain ⟨L1, s, L2, hLeq, hL1, hgeq⟩ := ih (G ++ [i]) g gs2 hpw2 hGL2 h
      refine ⟨i :: L1, s, L2, by rw [hLeq, List.cons_append], ?_, hgeq⟩
      intro a ha j hij hjn
      rcases List.mem_cons.mp ha with rfl | ha
      · by_contra hge
        push_neg at hge
        have hjF : j ∈ (List.range n).filter
            (fun j => decide (a < j ∧ j ∉ G ∧ t ≤ score a j)) := by
          rw [hFeq]
          refine List.mem_filter.mpr ⟨List.mem_range.mpr hjn, ?_⟩
          exact decide_eq_true (by exact ⟨hij, hge⟩)
        rw [hF] at hjF
        simp at hjF
      · exact hL1 a ha j hij hjn

theorem grouped_indices_first (records : List Record) (nc tc ac cc : String)
    (t : ℚ) (g : List Nat) (gs2 : List (List Nat))
    (h : grouped_indices records nc tc ac cc t = g :: gs2) :
    ∃ s, s < records.length ∧
      (∀ i, i < s → ∀ j, i < j → j < records.length →
        scoreIdx records nc tc ac cc i j < t) ∧
      g = s :: (List.range records.length).filter
        (fun j => decide (s < j ∧ t ≤ scoreIdx records nc tc ac cc s j)) := by
  obtain ⟨L1, s, L2, hL, hL1, hg⟩ :=
    group_scan_first (scoreIdx records nc tc ac cc) t records.length
      (List.range records.length) [] g gs2 (List.pairwise_lt_range _) (by simp) h
  have hn : records.length = L1.length + (L2.length + 1) := by
    have := congrArg List.length hL
    simpa [List.length_append, Nat.add_comm, Nat.add_assoc, Nat.add_left_comm] using this
  have hlt : L1.length < records.length := by omega
  have hs : s = L1.length := by
    have h1 : (List.range records.length)[L1.length]? = some s := by
      rw [hL]
      rw [List.getElem?_append_right (le_refl _)]
      simp
    rw [List.getElem?_range hlt] at h1
    exact (Option.some.injEq _ _).mp h1.symm
  have hL1r : L1 = List.range s := by
    have h2 : (L1 ++ s :: L2).take L1.length = L1 := List.take_left L1 _
    rw [← hL, List.take_range, Nat.min_eq_left (le_of_lt hlt)] at h2
    rw [hs]
    exact h2.symm
  refine ⟨s, by omega, ?_, hg⟩
  intro i hi j hij hjn
  exact hL1 i (by rw [hL1r]; exact List.mem_range.mpr hi) j hij hjn

theorem review_loop_acc : ∀ (inputs : List String) (gids approved rejected : List Nat),
    ∃ a r, review_loop gids inputs approved rejected =
        (approved ++ a, rejected ++ r) ∧
      (∀ x ∈ a, x ∈ gids) ∧ (∀ x ∈ r, x ∈ gids) ∧
      (gids.Nodup → ∀ x, ¬(x ∈ a ∧ x ∈ r)) := by
  intro inputs
  induction inputs with
  | nil =>
    intro gids approved rejected
    refine ⟨[], [], ?_, by simp, by simp, by simp⟩
    cases gids <;> simp [review_loop]
  | cons resp rest ih =>
    intro gids approved rejected
    cases gids with
    | nil => exact ⟨[], [], by simp [review_loop], by simp, by simp, by simp⟩
    | cons g gs =>
      rw [review_loop]
      split
      · obtain ⟨a, r, heq, ha, hr, hd⟩ := ih gs (approved ++ [g]) rejected
        refine ⟨g :: a, r, by rw [heq]; simp, ?_, ?_, ?_⟩
        · intro x hx
          rcases List.mem_cons.mp hx with rfl | hx
          · exact List.mem_cons_self _ _
          · exact List.mem_cons_of_mem _ (ha x hx)
        · intro x hx
          exact List.mem_cons_of_mem _ (hr x hx)
        · intro hnd x ⟨hxa, hxr⟩
          have hnd2 := List.nodup_cons.mp hnd
          rcases List.mem_cons.mp hxa with rfl | hxa
          · exact hnd2.1 (hr x hxr)
          · exact hd hnd2.2 x ⟨hxa, hxr⟩
      · split
        · obtain ⟨a, r, heq, ha, hr, hd⟩ := ih gs approved (rejected ++ [g])
          refine ⟨a, g :: r, by rw [heq]; simp, ?_, ?_, ?_⟩
          · intro x hx
            exact List.mem_cons_of_mem _ (ha x hx)
          · intro x hx
            rcases List.mem_cons.mp hx with rfl | hx
            · exact List.mem_cons_self _ _
            · exact List.mem_cons_of_mem _ (hr x hx)
          · intro hnd x ⟨hxa, hxr⟩
            have hnd2 := List.nodup_cons.mp hnd
            rcases List.mem_cons.mp hxr with rfl | hxr
            · exact hnd2.1 (ha x hxa)
            · exact hd hnd2.2 x ⟨hxa, hxr⟩
        · split
          · obtain ⟨a, r, heq, ha, hr, hd⟩ := ih gs approved rejected
            refine ⟨a, r, heq, ?_, ?_, ?_⟩
            · intro x hx
              exact List.mem_cons_of_mem _ (ha x hx)
            · intro x hx
              exact List.mem_cons_of_mem _ (hr x hx)
            · intro hnd
              exact hd (List.nodup_cons.mp hnd).2
          · obtain ⟨a, r, heq, ha, hr, hd⟩ := ih (g :: gs) approved rejected
            exact ⟨a, r, heq, ha, hr, hd⟩

theorem review_loop_take_prefix : ∀ (inputs : List String) (m : Nat)
    (gids approved rejected : List Nat),
    (review_loop gids (inputs.take m) approved rejected).1 <+:
      (review_loop gids inputs approved rejected).1 := by
  intro inputs
  induction inputs with
  | nil =>
    intro m gids approved rejected
    simp
  | cons resp rest ih =>
    intro m gids approved rejected
    cases m with
    | zero =>
      cases gids with
      | nil => simp [review_loop]
      | cons g gs =>
        simp only [List.take_zero]
        obtain ⟨a, r, heq, -, -, -⟩ :=
          review_loop_acc (resp :: rest) (g :: gs) approved rejected
        rw [heq]
        cases gids2 : review_loop ([] : List Nat) ([] : List String) approved rejected
        simp [review_loop]
    | succ m =>
      cases gids with
      | nil => simp [review_loop]
      | cons g gs =>
        rw [List.take_succ_cons, review_loop, review_loop]
        split
        · exact ih m gs (approved ++ [g]) rejected
        · split
          · exact ih m gs approved (rejected ++ [g])
          · split
            · exact ih m gs approved rejected
            · exact ih m (g :: gs) approved rejected

theorem group_scan_count2 (score : Nat → Nat → ℚ) (t : ℚ) :
    (group_scan score t 2 (List.range 2) []).length =
      if t ≤ score 0 1 then 1 else 0 := by
  by_cases h1 : t ≤ score 0 1 <;>
    simp [group_scan, List.range_succ, h1]

theorem group_scan_count3 (score : Nat → Nat → ℚ) (t : ℚ) :
    (group_scan score t 3 (List.range 3) []).length =
      if t ≤ score 0 1 ∨ t ≤ score 0 2 ∨ t ≤ score 1 2 then 1 else 0 := by
  by_cases h1 : t ≤ score 0 1 <;> by_cases h2 : t ≤ score 0 2 <;>
    by_cases h3 : t ≤ score 1 2 <;>
    simp [group_scan, List.range_succ, h1, h2, h3]

theorem score_name_only (r1 r2 : Record) (nc tc ac cc : String)
    (h1 : normalize_string (getField r1 nc) ≠ "")
    (h2 : normalize_string (getField r2 nc) ≠ "")
    (ha : normalize_string (getField r1 ac) = "" ∨ normalize_string (getField r2 ac) = "")
    (ht : normalize_string (getField r1 tc) = "" ∨ normalize_string (getField r2 tc) = "")
    (hc : normalize_string (getField r1 cc) = "" ∨ normalize_string (getField r2 cc) = "") :
    calculate_similarity_score r1 r2 nc tc ac cc =
      token_sort_ratio (normalize_string (getField r1 nc))
        (normalize_string (getField r2 nc)) := by
  unfold calculate_similarity_score subScores weightedOf
  have hA : ¬(normalize_string (getField r1 ac) ≠ "" ∧
      normalize_string (getField r2 ac) ≠ "") := by tauto
  have hT : ¬(normalize_string (getField r1 tc) ≠ "" ∧
      normalize_string (getField r2 tc) ≠ "") := by tauto
  have hC : ¬(normalize_string (getField r1 cc) ≠ "" ∧
      normalize_string (getField r2 cc) ≠ "") := by tauto
  simp only [if_pos (And.intro h1 h2), if_neg hA, if_neg hT, if_neg hC,
    List.append_nil, List.map_cons, List.map_nil, List.sum_cons, List.sum_nil]
  norm_num

theorem cex_e01 : scoreIdx cexRecords "name" "title" "addr" "comp" 0 1 = 175/2 := by
  unfold scoreIdx
  rw [show cexRecords.getD 0 [] = [("name", "aaaa")] from rfl,
    show cexRecords.getD 1 [] = [("name", "aaab")] from rfl,
    score_name_only [("name", "aaaa")] [("name", "aaab")] "name" "title" "addr" "comp"
      (by decide) (by decide) (by decide) (by decide) (by decide)]
  exact token_sort_ratio_eval _ _ 1 8 _ (by decide) (by decide) (by decide) (by norm_num)

theorem cex_e02 : scoreIdx cexRecords "name" "title" "addr" "comp" 0 2 = 75 := by
  unfold scoreIdx
  rw [show cexRecords.getD 0 [] = [("name", "aaaa")] from rfl,
    show cexRecords.getD 2 [] = [("name", "aabb")] from rfl,
    score_name_only [("name", "aaaa")] [("name", "aabb")] "name" "title" "addr" "comp"
      (by decide) (by decide) (by decide) (by decide) (by decide)]
  exact token_sort_ratio_eval _ _ 2 8 _ (by decide) (by decide) (by decide) (by norm_num)

theorem cex_e03 : scoreIdx cexRecords "name" "title" "addr" "comp" 0 3 = 125/2 := by
  unfold scoreIdx
  rw [show cexRecords.getD 0 [] = [("name", "aaaa")] from rfl,
    show cexRecords.getD 3 [] = [("name", "abbb")] from rfl,
    score_name_only [("name", "aaaa")] [("name", "abbb")] "name" "title" "addr" "comp"
      (by decide) (by decide) (by decide) (by decide) (by decide)]
  exact token_sort_ratio_eval _ _ 3 8 _ (by decide) (by decide) (by decide) (by norm_num)

theorem cex_e23 : scoreIdx cexRecords "name" "title" "addr" "comp" 2 3 = 175/2 := by
  unfold scoreIdx
  rw [show cexRecords.getD 2 [] = [("name", "aabb")] from rfl,
    show cexRecords.getD 3 [] = [("name", "abbb")] from rfl,
    score_name_only [("name", "aabb")] [("name", "abbb")] "name" "title" "addr" "comp"
      (by decide) (by decide) (by decide) (by decide) (by decide)]
  exact token_sort_ratio_eval _ _ 1 8 _ (by decide) (by decide) (by decide) (by norm_num)

theorem cex_low : grouped_indices cexRecords "name" "title" "addr" "comp" 60 =
    [[0, 1, 2, 3]] := by
  unfold grouped_indices
  rw [show cexRecords.length = 4 from rfl]
  norm_num [group_scan, List.range_succ, cex_e01, cex_e02, cex_e03, cex_e23]

theorem cex_high : grouped_indices cexRecords "name" "title" "addr" "comp" 85 =
    [[0, 1], [2, 3]] := by
  unfold grouped_indices
  rw [show cexRecords.length = 4 from rfl]
  norm_num [group_scan, List.range_succ, cex_e01, cex_e02, cex_e03, cex_e23]

theorem star_e01 : scoreIdx starRecords "name" "title" "addr" "comp" 0 1 = 80 := by
  unfold scoreIdx
  rw [show starRecords.getD 0 [] = [("name", "abcde")] from rfl,
    show starRecords.getD 1 [] = [("name", "xycde")] from rfl,
    score_name_only [("name", "abcde")] [("name", "xycde")] "name" "title" "addr" "comp"
      (by decide) (by decide) (by decide) (by decide) (by decide)]
  exact token_sort_ratio_eval _ _ 2 10 _ (by decide) (by decide) (by decide) (by norm_num)

theorem star_e02 : scoreIdx starRecords "name" "title" "addr" "comp" 0 2 = 80 := by
  unfold scoreIdx
  rw [show starRecords.getD 0 [] = [("name", "abcde")] from rfl,
    show starRecords.getD 2 [] = [("name", "abcyz")] from rfl,
    score_name_only [("name", "abcde")] [("name", "abcyz")] "name" "title" "addr" "comp"
      (by decide) (by decide) (by decide) (by decide) (by decide)]
  exact token_sort_ratio_eval _ _ 2 10 _ (by decide) (by decide) (by decide) (by norm_num)

theorem star_e12 : scoreIdx starRecords "name" "title" "addr" "comp" 1 2 = 60 := by
  unfold scoreIdx
  rw [show starRecords.getD 1 [] = [("name", "xycde")] from rfl,
    show starRecords.getD 2 [] = [("name", "abcyz")] from rfl,
    score_name_only [("name", "xycde")] [("name", "abcyz")] "name" "title" "addr" "comp"
      (by decide) (by decide) (by decide) (by decide) (by decide)]
  exact token_sort_ratio_eval _ _ 4 10 _ (by decide) (by decide) (by decide) (by norm_num)

theorem pair_e01 : scoreIdx pairRecords "name" "title" "addr" "comp" 0 1 = 100 := by
  unfold scoreIdx
  rw [show pairRecords.getD 0 [] = [("name", "ann lee")] from rfl,
    show pairRecords.getD 1 [] = [("name", "ann lee")] from rfl,
    score_name_only [("name", "ann lee")] [("name", "ann lee")] "name" "title" "addr" "comp"
      (by decide) (by decide) (by decide) (by decide) (by decide)]
  exact token_sort_ratio_self _

theorem pair_groups : grouped_indices pairRecords "name" "title" "addr" "comp" 75 =
    [[0, 1]] := by
  unfold grouped_indices
  rw [show pairRecords.length = 2 from rfl]
  norm_num [group_scan, List.range_succ, pair_e01]

theorem avg_pair (score : Nat → Nat → ℚ) (a b : Nat) :
    avg_similarity score [a, b] = score a b := by
  simp [avg_similarity, group_pair_scores]

theorem mem_uncertain_of (records : List Record) (nc tc ac cc : String)
    (t u : ℚ) (id : Nat) (g : List Nat)
    (hg : (grouped_indices records nc tc ac cc t)[id]? = some g)
    (h1 : t ≤ avg_similarity (scoreIdx records nc tc ac cc) g)
    (h2 : avg_similarity (scoreIdx records nc tc ac cc) g < u) :
    id ∈ (group_executive_records records nc tc ac cc t u).2 := by
  unfold group_executive_records
  simp only
  apply List.mem_map.mpr
  refine ⟨(id, g), ?_, rfl⟩
  apply List.mem_filter.mpr
  constructor
  · have he : ((grouped_indices records nc tc ac cc t).enum)[id]? = some (id, g) := by
      rw [List.getElem?_enum, hg]
      rfl
    exact List.getElem?_mem he
  · exact decide_eq_true ⟨h1, h2⟩

theorem annotated_get (records : List Record) (nc tc ac cc : String)
    (t u : ℚ) (id : Nat) (g : List Nat)
    (hg : (grouped_indices records nc tc ac cc t)[id]? = some g) :
    (group_executive_records records nc tc ac cc t u).1[id]? = some
      { group_id := id
        record_indices := g
        companies := ((g.map (fun idx =>
          normalize_string (getField (records.getD idx []) cc))).filter
            (fun s => s ≠ "")).dedup
        person_name := normalize_string (getField (records.getD (g.headD 0) []) nc)
        avg_similarity := avg_similarity (scoreIdx records nc tc ac cc) g
        confidence := confidence_of t u
          (avg_similarity (scoreIdx records nc tc ac cc) g) } := by
  unfold group_executive_records
  simp only
  rw [List.getElem?_map, List.getElem?_enum, hg]
  rfl

/-- C1: in the clustering pass, membership in a group is decided only
against the seed: every non-seed member of an emitted group scores at
least the threshold against the seed; for the first emitted group the
membership is exactly the ungrouped indices above the seed scoring at
least the threshold against it; and in a 3-record batch where the seed
links to both other records above threshold, all three end in one group
regardless of how the other two score against each other (star
clustering, not transitive closure). -/
theorem C1_star_membership :
    (∀ (records : List Record) (nc tc ac cc : String) (t : ℚ) (g : List Nat),
      g ∈ grouped_indices records nc tc ac cc t →
      ∃ s rest, g = s :: rest ∧ rest ≠ [] ∧
        ∀ j ∈ rest, s < j ∧ j < records.length ∧
          t ≤ scoreIdx records nc tc ac cc s j) ∧
    (∀ (records : List Record) (nc tc ac cc : String) (t : ℚ)
      (g : List Nat) (gs2 : List (List Nat)),
      grouped_indices records nc tc ac cc t = g :: gs2 →
      ∃ s, s < records.length ∧
        (∀ i, i < s → ∀ j, i < j → j < records.length →
          scoreIdx records nc tc ac cc i j < t) ∧
        g = s :: (List.range records.length).filter
          (fun j => decide (s < j ∧ t ≤ scoreIdx records nc tc ac cc s j))) ∧
    (∀ (score : Nat → Nat → ℚ) (t : ℚ), t ≤ score 0 1 → t ≤ score 0 2 →
      group_scan score t 3 (List.range 3) [] = [[0, 1, 2]]) := by
  refine ⟨?_, ?_, ?_⟩
  · intro records nc tc ac cc t g hg
    unfold grouped_indices at hg
    obtain ⟨s, rest, hgeq, -, -, hrne, hall⟩ :=
      group_scan_shape (scoreIdx records nc tc ac cc) t records.length
        (List.range records.length) [] g hg
    exact ⟨s, rest, hgeq, hrne, hall⟩
  · intro records nc tc ac cc t g gs2 hg
    exact grouped_indices_first records nc tc ac cc t g gs2 hg
  · intro score t h1 h2
    norm_num [group_scan, List.range_succ, h1, h2]

/-- C1 witness: the concrete 3-record star scenario with scores 80, 80
against the seed and 60 between the non-seed members, at threshold 75. -/
theorem C1_star_membership_witness :
    (75:ℚ) ≤ scoreIdx starRecords "name" "title" "addr" "comp" 0 1 ∧
    (75:ℚ) ≤ scoreIdx starRecords "name" "title" "addr" "comp" 0 2 ∧
    scoreIdx starRecords "name" "title" "addr" "comp" 1 2 < 75 ∧
    group_scan (scoreIdx starRecords "name" "title" "addr" "comp") 75 3
      (List.range 3) [] = [[0, 1, 2]] := by
  refine ⟨by rw [star_e01]; norm_num, by rw [star_e02]; norm_num,
    by rw [star_e12]; norm_num, ?_⟩
  exact C1_star_membership.2.2 (scoreIdx starRecords "name" "title" "addr" "comp")
    75 (by rw [star_e01]; norm_num) (by rw [star_e02]; norm_num)

/-- C2: the pairwise score equals the spec's weighted-average formula over
exactly the roles present on both sides (name 0.50, address 0.25, title
0.15, company 0.10, renormalized by the present weights, `0.0` when no
role is present on both sides), and it always lies in `[0, 100]`. -/
theorem C2_weighted_formula (record1 record2 : Record) (nc tc ac cc : String) :
    calculate_similarity_score record1 record2 nc tc ac cc =
      spec_score record1 record2 nc tc ac cc ∧
    0 ≤ calculate_similarity_score record1 record2 nc tc ac cc ∧
    calculate_similarity_score record1 record2 nc tc ac cc ≤ 100 :=
  ⟨calculate_similarity_score_eq_spec record1 record2 nc tc ac cc,
    calculate_similarity_score_nonneg record1 record2 nc tc ac cc,
    calculate_similarity_score_le_100 record1 record2 nc tc ac cc⟩

/-- C3: with grouping threshold at most uncertainty threshold, an emitted
group's tier is `low` when its average pairwise similarity is below the
grouping threshold, `uncertain` (and its identifier is queued for review)
when the average is between the thresholds, `high` when the average
reaches the uncertainty threshold; an average below the uncertainty
threshold never yields `high`; and the annotated group carries exactly
this tier and average. -/
theorem C3_tier_classification (records : List Record) (nc tc ac cc : String)
    (t u : ℚ) (ht : t ≤ u) (id : Nat) (g : List Nat)
    (hg : (grouped_indices records nc tc ac cc t)[id]? = some g) :
    (avg_similarity (scoreIdx records nc tc ac cc) g < t →
      confidence_of t u (avg_similarity (scoreIdx records nc tc ac cc) g) = "low") ∧
    (t ≤ avg_similarity (scoreIdx records nc tc ac cc) g →
      avg_similarity (scoreIdx records nc tc ac cc) g < u →
      confidence_of t u (avg_similarity (scoreIdx records nc tc ac cc) g) =
        "uncertain" ∧
      id ∈ (group_executive_records records nc tc ac cc t u).2) ∧
    (u ≤ avg_similarity (scoreIdx records nc tc ac cc) g →
      confidence_of t u (avg_similarity (scoreIdx records nc tc ac cc) g) = "high") ∧
    (avg_similarity (scoreIdx records nc tc ac cc) g < u →
      confidence_of t u (avg_similarity (scoreIdx records nc tc ac cc) g) = "low" ∨
      confidence_of t u (avg_similarity (scoreIdx records nc tc ac cc) g) =
        "uncertain") ∧
    (∃ gr, (group_executive_records records nc tc ac cc t u).1[id]? = some gr ∧
      gr.record_indices = g ∧
      gr.avg_similarity = avg_similarity (scoreIdx records nc tc ac cc) g ∧
      gr.confidence = confidence_of t u
        (avg_similarity (scoreIdx records nc tc ac cc) g)) := by
  refine ⟨?_, ?_, ?_, ?_, ?_⟩
  · intro h
    unfold confidence_of
    split_ifs with hc1 hc2
    · linarith [hc1.1]
    · linarith
    · rfl
  · intro h1 h2
    refine ⟨?_, mem_uncertain_of records nc tc ac cc t u id g hg h1 h2⟩
    unfold confidence_of
    rw [if_pos ⟨h1, h2⟩]
  · intro h
    unfold confidence_of
    split_ifs with hc1
    · linarith [hc1.2]
    · rfl
  · intro h
    unfold confidence_of
    split_ifs with hc1 hc2
    · exact Or.inr rfl
    · linarith
    · exact Or.inl rfl
  · exact ⟨_, annotated_get records nc tc ac cc t u id g hg, rfl, rfl, rfl⟩

/-- C3 witness: two identical records group together with average
similarity 100, which lands in the `high` tier at thresholds 75/85. -/
theorem C3_tier_classification_witness :
    (75:ℚ) ≤ 85 ∧
    (grouped_indices pairRecords "name" "title" "addr" "comp" 75)[0]? =
      some [0, 1] ∧
    confidence_of 75 85
      (avg_similarity (scoreIdx pairRecords "name" "title" "addr" "comp") [0, 1]) =
      "high" := by
  have hg : (grouped_indices pairRecords "name" "title" "addr" "comp" 75)[0]? =
      some [0, 1] := by
    rw [pair_groups]
    rfl
  refine ⟨by norm_num, hg, ?_⟩
  exact (C3_tier_classification pairRecords "name" "title" "addr" "comp" 75 85
    (by norm_num) 0 [0, 1] hg).2.2.1 (by rw [avg_pair, pair_e01]; norm_num)

/-- C4: after clustering, every input index appears in at most one
emitted group: each emitted group has no duplicate members and any two
distinct emitted groups have disjoint member sets. -/
theorem C4_partition (records : List Record) (nc tc ac cc : String) (t : ℚ) :
    (∀ g ∈ grouped_indices records nc tc ac cc t, g.Nodup) ∧
    List.Pairwise (fun g1 g2 => ∀ x ∈ g1, x ∉ g2)
      (grouped_indices records nc tc ac cc t) := by
  unfold grouped_indices
  exact ⟨fun g hg =>
    ((group_scan_nodup_disjoint (scoreIdx records nc tc ac cc) t records.length
      (List.range records.length) []).1 g hg).1,
    (group_scan_nodup_disjoint (scoreIdx records nc tc ac cc) t records.length
      (List.range records.length) []).2⟩

/-- C4 witness: the two groups emitted on the concrete 4-record batch at
threshold 85 have no duplicates and are disjoint. -/
theorem C4_partition_witness :
    [0, 1] ∈ grouped_indices cexRecords "name" "title" "addr" "comp" 85 ∧
    ([0, 1] : List Nat).Nodup ∧
    List.Pairwise (fun g1 g2 => ∀ x ∈ g1, x ∉ g2)
      (grouped_indices cexRecords "name" "title" "addr" "comp" 85) := by
  have hm : [0, 1] ∈ grouped_indices cexRecords "name" "title" "addr" "comp" 85 := by
    rw [cex_high]
    simp
  exact ⟨hm, (C4_partition cexRecords "name" "title" "addr" "comp" 85).1 [0, 1] hm,
    (C4_partition cexRecords "name" "title" "addr" "comp" 85).2⟩

/-- C5 counterexample: on a concrete 4-record batch, raising the grouping
threshold from 60 to 85 increases the number of emitted groups from 1 to
2, refuting the claim that raising the threshold never increases the
group count. -/
theorem C5_counterexample :
    (60:ℚ) ≤ 85 ∧
    (grouped_indices cexRecords "name" "title" "addr" "comp" 60).length = 1 ∧
    (grouped_indices cexRecords "name" "title" "addr" "comp" 85).length = 2 ∧
    ¬((grouped_indices cexRecords "name" "title" "addr" "comp" 85).length ≤
      (grouped_indices cexRecords "name" "title" "addr" "comp" 60).length) := by
  refine ⟨by norm_num, by rw [cex_low]; rfl, by rw [cex_high]; rfl, ?_⟩
  rw [cex_low, cex_high]
  simp

/-- C5 (amended): for batches of at most three records, raising the
grouping threshold never increases the number of emitted groups; the
original unrestricted claim fails from four records on (see the
counterexample). -/
theorem C5_threshold_monotonicity_amended (records : List Record)
    (nc tc ac cc : String) (t1 t2 : ℚ) (ht : t1 ≤ t2)
    (hlen : records.length ≤ 3) :
    (grouped_indices records nc tc ac cc t2).length ≤
      (grouped_indices records nc tc ac cc t1).length := by
  unfold grouped_indices
  generalize hn : records.length = n at hlen ⊢
  interval_cases n
  · simp [group_scan]
  · simp [group_scan, List.range_succ]
  · rw [group_scan_count2, group_scan_count2]
    split_ifs with ha hb
    · exact le_refl 1
    · exact absurd (le_trans ht ha) hb
    · norm_num
    · exact le_refl 0
  · rw [group_scan_count3, group_scan_count3]
    split_ifs with ha hb
    · exact le_refl 1
    · rcases ha with h | h | h
      · exact absurd (Or.inl (le_trans ht h)) hb
      · exact absurd (Or.inr (Or.inl (le_trans ht h))) hb
      · exact absurd (Or.inr (Or.inr (le_trans ht h))) hb
    · norm_num
    · exact le_refl 0

/-- C5 witness: the amended monotonicity applied to a concrete 2-record
batch with thresholds 60 and 85. -/
theorem C5_threshold_monotonicity_witness :
    (60:ℚ) ≤ 85 ∧ pairRecords.length ≤ 3 ∧
    (grouped_indices pairRecords "name" "title" "addr" "comp" 85).length ≤
      (grouped_indices pairRecords "name" "title" "addr" "comp" 60).length :=
  ⟨by norm_num, by decide,
    C5_threshold_monotonicity_amended pairRecords "name" "title" "addr" "comp"
      60 85 (by norm_num) (by decide)⟩

/-- C6: the pairwise score is symmetric in its two records. -/
theorem C6_score_symmetry (record1 record2 : Record) (nc tc ac cc : String) :
    calculate_similarity_score record1 record2 nc tc ac cc =
      calculate_similarity_score record2 record1 nc tc ac cc := by
  unfold calculate_similarity_score
  rw [subScores_symm]

/-- C7: a group is consolidated and uploaded exactly when its identifier
is in the approved list returned by the review session; every approval
and rejection comes from a presented (uncertain) group, so high-tier
groups are never auto-consolidated and rejected or skipped groups are
excluded; with distinct presented identifiers no group is both approved
and rejected; an empty input stream (immediate interruption) decides
nothing; and truncating the input stream only truncates the approval
list, so groups not yet reached are never consolidated. -/
theorem C7_approval_gate (groups : List GroupRec) (uncertain : List Nat)
    (inputs : List String) :
    (∀ gr, gr ∈ upload_approved_groups_to_firebase groups
        (display_review_interface groups uncertain inputs).1 ↔
      gr ∈ groups ∧
        gr.group_id ∈ (display_review_interface groups uncertain inputs).1) ∧
    (∀ x ∈ (display_review_interface groups uncertain inputs).1,
      ∃ gr, gr ∈ groups ∧ gr.group_id = x ∧ x ∈ uncertain) ∧
    (∀ x ∈ (display_review_interface groups uncertain inputs).2,
      ∃ gr, gr ∈ groups ∧ gr.group_id = x ∧ x ∈ uncertain) ∧
    (((groups.filter (fun g => g.group_id ∈ uncertain)).map
        (fun g => g.group_id)).Nodup →
      ∀ x, ¬(x ∈ (display_review_interface groups uncertain inputs).1 ∧
        x ∈ (display_review_interface groups uncertain inputs).2)) ∧
    display_review_interface groups uncertain [] = ([], []) ∧
    (∀ m, (display_review_interface groups uncertain (inputs.take m)).1 <+:
      (display_review_interface groups uncertain inputs).1) := by
  obtain ⟨a, r, heq, ha, hr, hd⟩ := review_loop_acc inputs
    ((groups.filter (fun g => g.group_id ∈ uncertain)).map (fun g => g.group_id))
    [] []
  have hda : display_review_interface groups uncertain inputs = (a, r) := by
    unfold display_review_interface
    rw [heq]
    simp
  refine ⟨?_, ?_, ?_, ?_, ?_, ?_⟩
  · intro gr
    unfold upload_approved_groups_to_firebase
    simp [List.mem_filter]
  · rw [hda]
    intro x hx
    obtain ⟨gr, hgr, hge⟩ := List.mem_map.mp (ha x hx)
    have h3 := List.mem_filter.mp hgr
    exact ⟨gr, h3.1, hge, by rw [← hge]; exact of_decide_eq_true h3.2⟩
  · rw [hda]
    intro x hx
    obtain ⟨gr, hgr, hge⟩ := List.mem_map.mp (hr x hx)
    have h3 := List.mem_filter.mp hgr
    exact ⟨gr, h3.1, hge, by rw [← hge]; exact of_decide_eq_true h3.2⟩
  · rw [hda]
    intro hnd x hx
    exact hd hnd x hx
  · unfold display_review_interface
    rcases hrs : (groups.filter (fun g => g.group_id ∈ uncertain)).map
        (fun g => g.group_id) with _ | ⟨b, l⟩ <;> rw [hrs] <;> rfl
  · intro m
    unfold display_review_interface
    exact review_loop_take_prefix inputs m _ [] []

/-- C7 witness: three uncertain groups reviewed with inputs yes, an
invalid answer, then no: the first is approved and uploaded, the second
rejected after the re-prompt, the third never reached, and no group is
both approved and rejected. -/
theorem C7_approval_gate_witness :
    display_review_interface wGroups [0, 1, 2] ["yes", "bogus", "no"] =
      ([0], [1]) ∧
    upload_approved_groups_to_firebase wGroups [0] =
      [{ group_id := 0, record_indices := [0, 1], companies := ["acme"],
         person_name := "ann lee", avg_similarity := 90,
         confidence := "uncertain" }] ∧
    ¬(1 ∈ (display_review_interface wGroups [0, 1, 2] ["yes", "bogus", "no"]).1 ∧
      1 ∈ (display_review_interface wGroups [0, 1, 2] ["yes", "bogus", "no"]).2) :=
  ⟨by decide, by decide,
    (C7_approval_gate wGroups [0, 1, 2] ["yes", "bogus", "no"]).2.2.2.1
      (by decide) 1⟩

/-- C8: when the two records have equal non-empty normalized names and no
address, title, or company data in common, the final score is exactly the
raw name token-sort similarity (the 0.5 weight renormalized to full
weight); and under the main-function fallback where all three other
column roles are replaced by the name column, equal names still give
exactly the raw name token-sort similarity. -/
theorem C8_identical_names_score :
    (∀ (r1 r2 : Record) (nc tc ac cc : String),
      normalize_string (getField r1 nc) ≠ "" →
      normalize_string (getField r1 nc) = normalize_string (getField r2 nc) →
      (normalize_string (getField r1 ac) = "" ∨
        normalize_string (getField r2 ac) = "") →
      (normalize_string (getField r1 tc) = "" ∨
        normalize_string (getField r2 tc) = "") →
      (normalize_string (getField r1 cc) = "" ∨
        normalize_string (getField r2 cc) = "") →
      calculate_similarity_score r1 r2 nc tc ac cc =
        token_sort_ratio (normalize_string (getField r1 nc))
          (normalize_string (getField r2 nc))) ∧
    (∀ (r1 r2 : Record) (nc : String),
      normalize_string (getField r1 nc) ≠ "" →
      normalize_string (getField r1 nc) = normalize_string (getField r2 nc) →
      calculate_similarity_score r1 r2 nc nc nc nc =
        token_sort_ratio (normalize_string (getField r1 nc))
          (normalize_string (getField r2 nc))) := by
  constructor
  · intro r1 r2 nc tc ac cc h1 heq ha ht hc
    exact score_name_only r1 r2 nc tc ac cc h1 (heq ▸ h1) ha ht hc
  · intro r1 r2 nc h1 heq
    have h2 : normalize_string (getField r2 nc) ≠ "" := heq ▸ h1
    unfold calculate_similarity_score subScores weightedOf
    rw [heq]
    simp [h2, token_sort_ratio_self, fuzz_ratio_self]
    norm_num

/-- C8 witness: two records with the same normalized name, where only one
record has a title and neither has address or company data. -/
theorem C8_identical_names_score_witness :
    normalize_string (getField [("name", "Bob  Jones")] "name") ≠ "" ∧
    normalize_string (getField [("name", "Bob  Jones")] "name") =
      normalize_string (getField [("name", "bob jones"), ("title", "cfo")] "name") ∧
    calculate_similarity_score [("name", "Bob  Jones")]
      [("name", "bob jones"), ("title", "cfo")] "name" "title" "addr" "comp" =
      token_sort_ratio (normalize_string (getField [("name", "Bob  Jones")] "name"))
        (normalize_string (getField [("name", "bob jones"), ("title", "cfo")] "name")) :=
  ⟨by decide, by decide,
    C8_identical_names_score.1 [("name", "Bob  Jones")]
      [("name", "bob jones"), ("title", "cfo")] "name" "title" "addr" "comp"
      (by decide) (by decide) (by decide) (by decide) (by decide)⟩

/-- C9: a record whose four scored roles are all non-empty scores exactly
100 against itself. -/
theorem C9_self_similarity (a : Record) (nc tc ac cc : String)
    (hn : normalize_string (getField a nc) ≠ "")
    (htl : normalize_string (getField a tc) ≠ "")
    (had : normalize_string (getField a ac) ≠ "")
    (hcm : normalize_string (getField a cc) ≠ "") :
    calculate_similarity_score a a nc tc ac cc = 100 := by
  unfold calculate_similarity_score subScores weightedOf
  simp [hn, htl, had, hcm, token_sort_ratio_self, fuzz_ratio_self]
  norm_num

/-- C9 witness: a concrete fully-populated record scores 100 against
itself. -/
theorem C9_self_similarity_witness :
    calculate_similarity_score fullRecord fullRecord "name" "title" "addr" "comp" =
      100 :=
  C9_self_similarity fullRecord "name" "title" "addr" "comp"
    (by decide) (by decide) (by decide) (by decide)

/-- C10: an emitted two-member group has average similarity at least the
grouping threshold (its single pair is the seed pair), so it is never
classified `low`; the `low` tier can only occur for groups of three or
more members. -/
theorem C10_two_member_groups (records : List Record) (nc tc ac cc : String)
    (t u : ℚ) (g : List Nat)
    (hg : g ∈ grouped_indices records nc tc ac cc t) :
    (g.length = 2 → t ≤ avg_similarity (scoreIdx records nc tc ac cc) g ∧
      confidence_of t u (avg_similarity (scoreIdx records nc tc ac cc) g) ≠
        "low") ∧
    (confidence_of t u (avg_similarity (scoreIdx records nc tc ac cc) g) =
        "low" → 3 ≤ g.length) := by
  unfold grouped_indices at hg
  obtain ⟨s, rest, hgeq, -, -, hrne, hall⟩ :=
    group_scan_shape (scoreIdx records nc tc ac cc) t records.length
      (List.range records.length) [] g hg
  have hpart1 : g.length = 2 →
      t ≤ avg_similarity (scoreIdx records nc tc ac cc) g ∧
      confidence_of t u (avg_similarity (scoreIdx records nc tc ac cc) g) ≠
        "low" := by
    intro hlen
    subst hgeq
    cases rest with
    | nil => exact absurd rfl hrne
    | cons j rest2 =>
      cases rest2 with
      | nil =>
        have hts : t ≤ scoreIdx records nc tc ac cc s j :=
          (hall j (List.mem_singleton.mpr rfl)).2.2
        rw [avg_pair]
        refine ⟨hts, ?_⟩
        unfold confidence_of
        split_ifs with hc1 hc2
        · simp
        · simp
        · push_neg at hc2
          exact absurd ⟨hts, hc2⟩ hc1
      | cons k rest3 => simp at hlen
  refine ⟨hpart1, ?_⟩
  intro hc
  rcases Nat.lt_or_ge g.length 3 with hl | hl
  · have h2 : g.length = 2 := by
      subst hgeq
      cases rest with
      | nil => exact absurd rfl hrne
      | cons j rest2 =>
        simp only [List.length_cons] at hl ⊢
        omega
    exact absurd hc (hpart1 h2).2
  · exact hl

/-- C10 witness: the concrete two-member group of identical records has
average 100 at threshold 75 and is not classified `low`. -/
theorem C10_two_member_groups_witness :
    [0, 1] ∈ grouped_indices pairRecords "name" "title" "addr" "comp" 75 ∧
    ([0, 1] : List Nat).length = 2 ∧
    (75:ℚ) ≤ avg_similarity (scoreIdx pairRecords "name" "title" "addr" "comp")
      [0, 1] ∧
    confidence_of 75 85
      (avg_similarity (scoreIdx pairRecords "name" "title" "addr" "comp") [0, 1]) ≠
      "low" := by
  have hmem : [0, 1] ∈ grouped_indices pairRecords "name" "title" "addr" "comp" 75 := by
    rw [pair_groups]
    simp
  have h := (C10_two_member_groups pairRecords "name" "title" "addr" "comp"
    75 85 [0, 1] hmem).1 rfl
  exact ⟨hmem, rfl, h.1, h.2⟩

end ERT
